import Mathlib

/-!
# LocalFileEvalStore: a shallow embedding

Embedding of `src/genkit-tools/common/src/eval/localFileEvalStore.ts`.
File contents and identifiers are modelled as `List Char` (a faithful
sequence model of JS strings); the filesystem owned by the store is a pair
of an association list of record files and the text of the index log.

The schema/serialization layer (`EvalRunSchema`, `EvalRunKeySchema`,
`JSON.stringify`/`JSON.parse` from `../types/eval`) is not part of the
source tree; per the design document it is an external collaborator
supplying opaque parse-or-fail capabilities. It is modelled here as a
concrete injective newline-free encoding with a partial inverse.
-/

namespace LocalFileEvalStore

/-- JS strings (and file contents) as sequences of characters. -/
abbrev Str := List Char

/-- Modelled from the spec: `EvalRunKey` (from `../types/eval`, outside the
source tree) — minimally `evalRunId` and `actionRef`, both strings. -/
structure EvalRunKey where
  evalRunId : Str
  actionRef : Str
deriving DecidableEq, Repr

/-- Modelled from the spec: `EvalRun` (from `../types/eval`, outside the
source tree) — an `EvalRunKey` plus an opaque validated payload that this
layer never interprets. -/
structure EvalRun where
  key : EvalRunKey
  payload : Str
deriving DecidableEq, Repr

/-- Modelled from the spec: the `actionRef` filter of
`ListEvalKeysRequest.filter` (from `../types/apis`, outside the source
tree). The field is optional in the TS type. -/
structure EvalFilter where
  actionRef : Option Str
deriving DecidableEq, Repr

/-- Modelled from the spec: `ListEvalKeysRequest` (from `../types/apis`,
outside the source tree) with its optional `filter`. -/
structure ListEvalKeysRequest where
  filter : Option EvalFilter
deriving DecidableEq, Repr

/-- Modelled from the spec: `ListEvalKeysResponse` (from `../types/apis`,
outside the source tree): the list of keys returned by `list`. -/
structure ListEvalKeysResponse where
  evalRunKeys : List EvalRunKey
deriving DecidableEq, Repr

/-- The error taxonomy of the design document: `delete` on a missing
record raises Not Found; JSON-parse/schema failures raise Malformed Data. -/
inductive StoreErr where
  | notFound
  | malformedData
deriving DecidableEq, Repr

/-- The filesystem state owned by the store root: the record files
(an association list from file name to content) and the index log text. -/
structure StoreState where
  records : List (Str × Str)
  index : Str
deriving DecidableEq, Repr

/-! ## Filesystem primitives -/

/-- Reading a file by name from the record directory (`fs.existsSync` +
`readFile`): the first association wins. -/
def fsRead : List (Str × Str) → Str → Option Str
  | [], _ => none
  | (n, c) :: rest, target => if n = target then some c else fsRead rest target

/-- `fs.unlink`: remove a file by name. -/
def fsRemove (m : List (Str × Str)) (n : Str) : List (Str × Str) :=
  m.filter (fun p => p.1 != n)

/-- `fs.writeFile`: overwrite (or create) a file. -/
def fsWrite (m : List (Str × Str)) (n c : Str) : List (Str × Str) :=
  (n, c) :: fsRemove m n

/-! ## JS string operations used by the source -/

/-- JS `String.prototype.split` with a single-character separator:
`"".split(sep)` is `[""]`, and a trailing separator yields a final empty
segment. -/
def splitChar (sep : Char) : Str → List Str
  | [] => [[]]
  | c :: rest =>
    if c = sep then [] :: splitChar sep rest
    else
      match splitChar sep rest with
      | [] => [[c]]
      | s :: ss => (c :: s) :: ss

/-- JS `Array.prototype.join` with a single-character separator:
`[].join(sep)` is `""`. -/
def joinChar (sep : Char) : List Str → Str
  | [] => []
  | [s] => s
  | s :: rest => s ++ sep :: joinChar sep rest

/-- `readline.createInterface` line iteration: newline-terminated lines,
with no phantom empty line after a trailing newline, and a final
unterminated line still produced. -/
def readLines (content : Str) : List Str :=
  let parts := splitChar '\n' content
  if parts.getLast? = some ([] : Str) then parts.dropLast else parts

/-! ## The serialization collaborator, modelled from the spec

`JSON.stringify` on a key/run produces a single line free of raw newline
characters (newlines inside strings are escaped); `JSON.parse` composed
with `EvalRunKeySchema.parse` / `EvalRunSchema.parse` either recovers the
value or fails. Modelled as an escape-based record encoding: fields are
escaped so that they contain neither the field separator `;` nor `\n`,
then joined by `;`. -/

/-- Escape one character: `\` ↦ `\\`, newline ↦ `\n`, `;` ↦ `\s`. -/
def escapeChar (c : Char) : Str :=
  if c = '\\' then ['\\', '\\']
  else if c = '\n' then ['\\', 'n']
  else if c = ';' then ['\\', 's']
  else [c]

/-- Escape a string field for embedding in a serialized line. -/
def escape : Str → Str
  | [] => []
  | c :: rest => escapeChar c ++ escape rest

/-- Decode the character following a backslash; unknown escapes fail. -/
def unescapeChar (d : Char) : Option Char :=
  if d = '\\' then some '\\'
  else if d = 'n' then some '\n'
  else if d = 's' then some ';'
  else none

/-- Partial inverse of `escape`; fails on dangling or unknown escapes. -/
def unescape : Str → Option Str
  | [] => some []
  | [c] => if c = '\\' then none else some [c]
  | c :: d :: rest =>
    if c = '\\' then
      (unescapeChar d).bind (fun e => (unescape rest).map (fun s => e :: s))
    else (unescape (d :: rest)).map (fun s => c :: s)

/-- Modelled from the spec: `JSON.stringify(evalRun.key)` — one
newline-free line holding both key fields. -/
def stringifyKey (k : EvalRunKey) : Str :=
  escape k.evalRunId ++ ';' :: escape k.actionRef

/-- Modelled from the spec: `JSON.stringify(evalRun)` — one line holding
the key fields and the payload. -/
def stringifyRun (r : EvalRun) : Str :=
  escape r.key.evalRunId ++ ';' :: (escape r.key.actionRef ++ ';' :: escape r.payload)

/-- Modelled from the spec: `EvalRunKeySchema.parse(JSON.parse(line))` —
parse-or-fail on a serialized key. Mirrors the source's `parseLineToKey`. -/
def parseLineToKey (line : Str) : Except StoreErr EvalRunKey :=
  match splitChar ';' line with
  | [a, b] =>
    match unescape a, unescape b with
    | some i, some r => .ok ⟨i, r⟩
    | _, _ => .error .malformedData
  | _ => .error .malformedData

/-- Modelled from the spec: `EvalRunSchema.parse(JSON.parse(data))` —
parse-or-fail on a serialized run. -/
def parseEvalRun (data : Str) : Except StoreErr EvalRun :=
  match splitChar ';' data with
  | [a, b, c] =>
    match unescape a, unescape b, unescape c with
    | some i, some r, some p => .ok ⟨⟨i, r⟩, p⟩
    | _, _, _ => .error .malformedData
  | _ => .error .malformedData

/-! ## The store operations (from the source) -/

/-- `generateFileName`: `` `${evalRunId}.json` ``. -/
def generateFileName (evalRunId : Str) : Str :=
  evalRunId ++ ('.' :: 'j' :: 's' :: 'o' :: 'n' :: [])

/-- The store right after the constructor ran on a fresh root: no record
files, and an empty index file just created by `fs.writeFileSync`. -/
def freshStore : StoreState :=
  ⟨[], []⟩

/-- `save`: write the serialized run to `{evalRunId}.json`, then append
the serialized key plus the `INDEX_DELIMITER` (`'\n'`) to the index log. -/
def save (st : StoreState) (evalRun : EvalRun) : StoreState :=
  ⟨fsWrite st.records (generateFileName evalRun.key.evalRunId) (stringifyRun evalRun),
   st.index ++ stringifyKey evalRun.key ++ ['\n']⟩

/-- `load`: absent file yields `undefined` (here `none`, not an error);
otherwise read and schema-parse the record, propagating a Malformed Data
failure. -/
def load (st : StoreState) (evalRunId : Str) : Except StoreErr (Option EvalRun) :=
  match fsRead st.records (generateFileName evalRunId) with
  | none => .ok none
  | some data =>
    match parseEvalRun data with
    | .ok r => .ok (some r)
    | .error e => .error e

/-- The index-reading phase of `list`: empty text short-circuits to `[]`;
otherwise `slice(0, -1)` drops the final character, the rest is split on
the delimiter and every line is parsed (`map(this.parseLineToKey)`, which
throws on the first bad line). -/
def parseLines : List Str → Except StoreErr (List EvalRunKey)
  | [] => .ok []
  | line :: rest =>
    match parseLineToKey line with
    | .error e => .error e
    | .ok k =>
      match parseLines rest with
      | .error e => .error e
      | .ok ks => .ok (k :: ks)

/-- Reads all keys from the index-log text, as `list` does. -/
def readIndexKeys (data : Str) : Except StoreErr (List EvalRunKey) :=
  if data = [] then .ok []
  else parseLines (splitChar '\n' data.dropLast)

/-- `query?.filter?.actionRef` as an optional chain. -/
def queryActionRef (query : Option ListEvalKeysRequest) : Option Str :=
  match query with
  | none => none
  | some q =>
    match q.filter with
    | none => none
    | some f => f.actionRef

/-- `list`: read and parse the whole index, then, when
`query?.filter?.actionRef` is truthy (present and non-empty, per JS
truthiness), retain only keys whose `actionRef` strictly equals it. -/
def list (st : StoreState) (query : Option ListEvalKeysRequest) :
    Except StoreErr ListEvalKeysResponse :=
  match readIndexKeys st.index with
  | .error e => .error e
  | .ok keys =>
    match queryActionRef query with
    | some a =>
      if a = [] then .ok ⟨keys⟩
      else .ok ⟨keys.filter (fun k => k.actionRef == a)⟩
    | none => .ok ⟨keys⟩

/-- `deleteEvalRunFromIndex`'s streaming pass: parse every line (the
first unparseable line aborts), keep the lines whose key's `evalRunId`
differs from the target. -/
def rebuildIndex (evalRunId : Str) : List Str → Except StoreErr (List Str)
  | [] => .ok []
  | line :: rest =>
    match parseLineToKey line with
    | .error e => .error e
    | .ok entry =>
      match rebuildIndex evalRunId rest with
      | .error e => .error e
      | .ok kept =>
        .ok (if entry.evalRunId == evalRunId then kept else line :: kept)

/-- `delete`: missing record file raises Not Found with nothing touched;
otherwise unlink the record file, then rebuild the index log from its
lines and rewrite it as the kept lines joined by the delimiter plus one
trailing delimiter. A parse failure during the rebuild propagates after
the record file is already gone, leaving the index text untouched. -/
def deleteOp (st : StoreState) (evalRunId : Str) : StoreState × Except StoreErr Unit :=
  match fsRead st.records (generateFileName evalRunId) with
  | none => (st, .error .notFound)
  | some _ =>
    match rebuildIndex evalRunId (readLines st.index) with
    | .error e => (⟨fsRemove st.records (generateFileName evalRunId), st.index⟩, .error e)
    | .ok kept =>
      (⟨fsRemove st.records (generateFileName evalRunId), joinChar '\n' kept ++ ['\n']⟩, .ok ())

/-! ## Concrete sample data for witnesses and counterexamples -/

/-- A sample valid run for the round-trip witness. -/
def wRun1 : EvalRun := ⟨⟨['r', 'u', 'n', '1'], ['f', 'l', 'o', 'w']⟩, ['p', '1']⟩

/-- The single run of the delete-the-last-run scenario. -/
def c2Run : EvalRun := ⟨⟨['a'], ['r']⟩, ['p']⟩

/-- A sample run for the load-contract witness. -/
def c3Run : EvalRun := ⟨⟨['c'], ['f']⟩, ['p', '3']⟩

/-- A store whose record file for id `b` holds content that fails to
parse as a run. -/
def c3BadStore : StoreState := ⟨[(generateFileName ['b'], ['z', 'z'])], []⟩

/-- The key of the empty-filter counterexample: its `actionRef` is the
non-empty string `a`. -/
def c5Key : EvalRunKey := ⟨['r', '1'], ['a']⟩

/-- Runs with `actionRef` values a, b, a, for the filter witness. -/
def c5RunA : EvalRun := ⟨⟨['i', '1'], ['a']⟩, ['p']⟩

/-- Second run of the filter witness scenario (actionRef b). -/
def c5RunB : EvalRun := ⟨⟨['i', '2'], ['b']⟩, ['q']⟩

/-- Third run of the filter witness scenario (actionRef a again). -/
def c5RunC : EvalRun := ⟨⟨['i', '3'], ['a']⟩, ['s']⟩

/-- A sample run for the trailing-delimiter witness. -/
def c7Run : EvalRun := ⟨⟨['d'], ['e']⟩, ['q']⟩

/-- A store holding a record file for id `a` next to an index log whose
single line is not a serialized key. -/
def c9Store : StoreState :=
  ⟨[(generateFileName ['a'], ['x'])], ['o', 'o', 'p', 's', '\n']⟩

end LocalFileEvalStore

namespace LocalFileEvalStore

/-! ## Codec lemmas -/

theorem escapeChar_no_semi (c : Char) : ';' ∉ escapeChar c := by
  unfold escapeChar
  split_ifs with h1 h2 h3
  · decide
  · decide
  · decide
  · intro hm
    rcases List.mem_singleton.mp hm with h
    exact h3 h.symm

theorem escapeChar_no_newline (c : Char) : '\n' ∉ escapeChar c := by
  unfold escapeChar
  split_ifs with h1 h2 h3
  · decide
  · decide
  · decide
  · intro hm
    rcases List.mem_singleton.mp hm with h
    exact h2 h.symm

theorem escape_no_semi (s : Str) : ';' ∉ escape s := by
  induction s with
  | nil => simp [escape]
  | cons c rest ih =>
    simp only [escape, List.mem_append]
    rintro (hm | hm)
    · exact escapeChar_no_semi c hm
    · exact ih hm

theorem escape_no_newline (s : Str) : '\n' ∉ escape s := by
  induction s with
  | nil => simp [escape]
  | cons c rest ih =>
    simp only [escape, List.mem_append]
    rintro (hm | hm)
    · exact escapeChar_no_newline c hm
    · exact ih hm

theorem escape_ne_nil (c : Char) (rest : Str) : escape (c :: rest) ≠ [] := by
  simp only [escape]
  intro hnil
  have h1 : escapeChar c = [] := (List.append_eq_nil.mp hnil).1
  revert h1
  unfold escapeChar
  split_ifs <;> simp

theorem unescape_escape (s : Str) : unescape (escape s) = some s := by
  induction s with
  | nil => rfl
  | cons c rest ih =>
    simp only [escape, escapeChar]
    split_ifs with h1 h2 h3
    · subst h1
      simp only [List.cons_append, List.nil_append]
      simp [unescape, unescapeChar, ih]
    · subst h2
      simp only [List.cons_append, List.nil_append]
      simp [unescape, unescapeChar, ih]
    · subst h3
      simp only [List.cons_append, List.nil_append]
      simp [unescape, unescapeChar, ih]
    · simp only [List.cons_append, List.nil_append]
      cases hrest : escape rest with
      | nil =>
        cases rest with
        | nil => simp [escape, unescape, h1]
        | cons x xs => exact absurd hrest (escape_ne_nil x xs)
      | cons d tail =>
        simp only [unescape]
        rw [if_neg h1, ← hrest, ih]
        rfl

theorem splitChar_of_not_mem (sep : Char) (xs : Str) (h : sep ∉ xs) :
    splitChar sep xs = [xs] := by
  induction xs with
  | nil => rfl
  | cons c rest ih =>
    have hc : c ≠ sep := fun hc => h (hc ▸ List.mem_cons_self c rest)
    have hrest : sep ∉ rest := fun hm => h (List.mem_cons_of_mem c hm)
    simp [splitChar, hc, ih hrest]

theorem splitChar_append_sep (sep : Char) (xs ys : Str) (h : sep ∉ xs) :
    splitChar sep (xs ++ sep :: ys) = xs :: splitChar sep ys := by
  induction xs with
  | nil => simp [splitChar]
  | cons c rest ih =>
    have hc : c ≠ sep := fun hc => h (hc ▸ List.mem_cons_self c rest)
    have hrest : sep ∉ rest := fun hm => h (List.mem_cons_of_mem c hm)
    have := ih hrest
    simp only [List.cons_append, splitChar, List.append_eq, if_neg hc, this]

theorem parseLineToKey_stringifyKey (k : EvalRunKey) :
    parseLineToKey (stringifyKey k) = .ok k := by
  unfold parseLineToKey stringifyKey
  rw [splitChar_append_sep ';' _ _ (escape_no_semi k.evalRunId),
    splitChar_of_not_mem ';' _ (escape_no_semi k.actionRef)]
  simp [unescape_escape]

theorem parseEvalRun_stringifyRun (r : EvalRun) :
    parseEvalRun (stringifyRun r) = .ok r := by
  unfold parseEvalRun stringifyRun
  rw [splitChar_append_sep ';' _ _ (escape_no_semi r.key.evalRunId),
    splitChar_append_sep ';' _ _ (escape_no_semi r.key.actionRef),
    splitChar_of_not_mem ';' _ (escape_no_semi r.payload)]
  simp [unescape_escape]

theorem fsRead_fsWrite_same (m : List (Str × Str)) (n c : Str) :
    fsRead (fsWrite m n c) n = some c := by
  simp [fsRead, fsWrite]

end LocalFileEvalStore

namespace LocalFileEvalStore

/-! ## Error-classification lemmas -/

theorem parseEvalRun_error_eq (data : Str) (e : StoreErr)
    (h : parseEvalRun data = .error e) : e = .malformedData := by
  unfold parseEvalRun at h
  split at h
  · split at h <;> simp_all
  · simp_all

theorem parseLineToKey_error_eq (line : Str) (e : StoreErr)
    (h : parseLineToKey line = .error e) : e = .malformedData := by
  unfold parseLineToKey at h
  split at h
  · split at h <;> simp_all
  · simp_all

theorem parseLines_error_of_mem (lines : List Str) (line : Str)
    (hmem : line ∈ lines) (hbad : ∃ e, parseLineToKey line = .error e) :
    ∃ e, parseLines lines = .error e := by
  induction lines with
  | nil => cases hmem
  | cons l rest ih =>
    rcases List.mem_cons.mp hmem with h | h
    · subst h
      obtain ⟨e, he⟩ := hbad
      exact ⟨e, by simp [parseLines, he]⟩
    · cases hl : parseLineToKey l with
      | error e => exact ⟨e, by simp [parseLines, hl]⟩
      | ok k =>
        obtain ⟨e, he⟩ := ih h
        exact ⟨e, by simp [parseLines, hl, he]⟩

theorem rebuildIndex_error_of_mem (evalRunId : Str) (lines : List Str) (line : Str)
    (hmem : line ∈ lines) (hbad : ∃ e, parseLineToKey line = .error e) :
    ∃ e, rebuildIndex evalRunId lines = .error e := by
  induction lines with
  | nil => cases hmem
  | cons l rest ih =>
    rcases List.mem_cons.mp hmem with h | h
    · subst h
      obtain ⟨e, he⟩ := hbad
      exact ⟨e, by simp [rebuildIndex, he]⟩
    · cases hl : parseLineToKey l with
      | error e => exact ⟨e, by simp [rebuildIndex, hl]⟩
      | ok k =>
        obtain ⟨e, he⟩ := ih h
        exact ⟨e, by simp [rebuildIndex, hl, he]⟩

theorem rebuildIndex_error_eq (evalRunId : Str) (lines : List Str) (e : StoreErr)
    (h : rebuildIndex evalRunId lines = .error e) : e = .malformedData := by
  induction lines with
  | nil => simp [rebuildIndex] at h
  | cons l rest ih =>
    unfold rebuildIndex at h
    cases hl : parseLineToKey l with
    | error e2 =>
      rw [hl] at h
      simp at h
      subst h
      exact parseLineToKey_error_eq l _ hl
    | ok entry =>
      rw [hl] at h
      cases hr : rebuildIndex evalRunId rest with
      | error e2 =>
        rw [hr] at h
        simp at h
        subst h
        exact ih hr
      | ok kept =>
        rw [hr] at h
        simp at h

end LocalFileEvalStore

namespace LocalFileEvalStore

/-! ## Claim theorems -/

/-- Claim C1: for every valid `EvalRun` whose `evalRunId` is non-empty and
free of path separators, `save` followed immediately by `load` of that id
returns a value deep-equal to the saved run. -/
theorem save_then_load_roundtrip (st : StoreState) (r : EvalRun)
    (_h1 : r.key.evalRunId ≠ []) (_h2 : '/' ∉ r.key.evalRunId)
    (_h3 : '\\' ∉ r.key.evalRunId) :
    load (save st r) r.key.evalRunId = .ok (some r) := by
  simp [load, save, fsRead_fsWrite_same, parseEvalRun_stringifyRun]

/-- Witness for C1 at a concrete run. -/
theorem save_then_load_roundtrip_witness :
    load (save freshStore wRun1) wRun1.key.evalRunId = .ok (some wRun1) :=
  save_then_load_roundtrip freshStore wRun1 (by decide) (by decide) (by decide)

/-- Claim C4: `delete` of an id whose record file does not exist fails
with Not Found and leaves the whole store state (record files and index
log) unchanged. -/
theorem delete_absent_fails (st : StoreState) (evalRunId : Str)
    (h : fsRead st.records (generateFileName evalRunId) = none) :
    deleteOp st evalRunId = (st, .error .notFound) := by
  simp [deleteOp, h]

/-- Witness for C4 on the fresh store. -/
theorem delete_absent_fails_witness :
    deleteOp freshStore ['x'] = (freshStore, .error .notFound) :=
  delete_absent_fails freshStore ['x'] rfl

/-- Claim C3: `load` answers absent exactly when the record file is
absent; a present file yields the parsed run when its content parses, and
a Malformed Data error otherwise — never a partial object. -/
theorem load_contract (st : StoreState) (evalRunId : Str) :
    (load st evalRunId = .ok none ↔
      fsRead st.records (generateFileName evalRunId) = none) ∧
    (∀ data r, fsRead st.records (generateFileName evalRunId) = some data →
      parseEvalRun data = .ok r → load st evalRunId = .ok (some r)) ∧
    (∀ data e, fsRead st.records (generateFileName evalRunId) = some data →
      parseEvalRun data = .error e → load st evalRunId = .error .malformedData) := by
  cases hread : fsRead st.records (generateFileName evalRunId) with
  | none =>
    refine ⟨?_, ?_, ?_⟩
    · simp [load, hread]
    · intro data r hd
      simp at hd
    · intro data e hd
      simp at hd
  | some data0 =>
    refine ⟨?_, ?_, ?_⟩
    · constructor
      · intro hl
        exfalso
        cases hp : parseEvalRun data0 with
        | ok r => simp [load, hread, hp] at hl
        | error e => simp [load, hread, hp] at hl
      · intro h
        simp at h
    · intro data r hd hp
      injection hd with hd
      subst hd
      simp [load, hread, hp]
    · intro data e hd hp
      injection hd with hd
      subst hd
      have he : e = .malformedData := parseEvalRun_error_eq _ _ hp
      subst he
      simp [load, hread, hp]

/-- Witness for C3: absent id on the fresh store, a good record after a
save, and a corrupt record file. -/
theorem load_contract_witness :
    load freshStore ['x'] = .ok none ∧
    load (save freshStore c3Run) c3Run.key.evalRunId = .ok (some c3Run) ∧
    load c3BadStore ['b'] = .error .malformedData := by
  refine ⟨?_, ?_, ?_⟩
  · exact (load_contract freshStore ['x']).1.mpr rfl
  · exact (load_contract (save freshStore c3Run) c3Run.key.evalRunId).2.1
      (stringifyRun c3Run) c3Run (by rfl) (parseEvalRun_stringifyRun c3Run)
  · exact (load_contract c3BadStore ['b']).2.2
      ['z', 'z'] .malformedData rfl rfl

/-- Claim C8: on a freshly initialized store, `list` under any query
returns the empty (non-null) key list and `load` of any id is absent. -/
theorem fresh_store_empty (query : Option ListEvalKeysRequest) (evalRunId : Str) :
    list freshStore query = .ok ⟨[]⟩ ∧ load freshStore evalRunId = .ok none := by
  constructor
  · cases hq : queryActionRef query with
    | none => simp [list, readIndexKeys, freshStore, hq]
    | some a =>
      by_cases ha : a = [] <;>
        simp [list, readIndexKeys, freshStore, hq, ha]
  · simp [load, freshStore, fsRead]

/-- Claim C10: a query whose `actionRef` filter is the empty string is
falsy in JS, so `list` applies no filtering: the result is identical to a
query-less `list`. -/
theorem list_empty_filter_no_filtering (st : StoreState) :
    list st (some ⟨some ⟨some []⟩⟩) = list st none := by
  unfold list
  cases readIndexKeys st.index <;> simp [queryActionRef]

/-- Claim C6: whenever the stripped-and-split index log contains a line
that does not parse as a key, the whole `list` call fails — it never
returns a partial listing. -/
theorem list_fails_on_malformed_index_line (st : StoreState)
    (query : Option ListEvalKeysRequest) (line : Str)
    (hne : st.index ≠ [])
    (hmem : line ∈ splitChar '\n' st.index.dropLast)
    (hbad : ∃ e, parseLineToKey line = .error e) :
    ∃ e, list st query = .error e := by
  obtain ⟨e, he⟩ := parseLines_error_of_mem _ _ hmem hbad
  exact ⟨e, by simp [list, readIndexKeys, hne, he]⟩

/-- Witness for C6: an index holding only a delimiter has the empty
string as its single line, which fails to parse. -/
theorem list_fails_on_malformed_index_line_witness :
    ∃ e, list ⟨[], ['\n']⟩ none = .error e :=
  list_fails_on_malformed_index_line ⟨[], ['\n']⟩ none []
    (by decide) (by decide) ⟨.malformedData, rfl⟩

/-- Claim C7: every successful mutation leaves the index log ending in
the delimiter — `save` appends the serialized key plus delimiter, and a
successful `delete` rewrites the kept lines each followed by the
delimiter. -/
theorem index_ends_with_delimiter (st : StoreState) (r : EvalRun) (evalRunId : Str) :
    (∃ t, (save st r).index = t ++ ['\n']) ∧
    ((deleteOp st evalRunId).2 = .ok () →
      ∃ t, ((deleteOp st evalRunId).1).index = t ++ ['\n']) := by
  constructor
  · exact ⟨st.index ++ stringifyKey r.key, by simp [save]⟩
  · intro hok
    cases hread : fsRead st.records (generateFileName evalRunId) with
    | none => simp [deleteOp, hread] at hok
    | some c =>
      cases hreb : rebuildIndex evalRunId (readLines st.index) with
      | error e => simp [deleteOp, hread, hreb] at hok
      | ok kept =>
        refine ⟨joinChar '\n' kept, ?_⟩
        simp [deleteOp, hread, hreb]

/-- Witness for C7: a save and then a successful delete on that store. -/
theorem index_ends_with_delimiter_witness :
    (∃ t, (save freshStore c7Run).index = t ++ ['\n']) ∧
    (∃ t, ((deleteOp (save freshStore c7Run) ['d']).1).index = t ++ ['\n']) :=
  ⟨(index_ends_with_delimiter freshStore c7Run ['d']).1,
   (index_ends_with_delimiter (save freshStore c7Run) c7Run ['d']).2 rfl⟩

/-- Claim C9: when the index log holds an unparseable line, `delete` of
an existing run removes the record file and then fails in the rebuild
before the index is rewritten: the error state has the record gone and
the index text untouched — not atomic on error. -/
theorem delete_malformed_index_not_atomic (st : StoreState) (evalRunId : Str)
    (data line : Str)
    (hfile : fsRead st.records (generateFileName evalRunId) = some data)
    (hmem : line ∈ readLines st.index)
    (hbad : ∃ e, parseLineToKey line = .error e) :
    deleteOp st evalRunId =
      (⟨fsRemove st.records (generateFileName evalRunId), st.index⟩,
        .error .malformedData) := by
  obtain ⟨e, he⟩ := rebuildIndex_error_of_mem evalRunId _ _ hmem hbad
  have hm : e = .malformedData := rebuildIndex_error_eq _ _ _ he
  subst hm
  simp [deleteOp, hfile, he]

/-- Witness for C9: deleting id `a` while the index holds the junk line
`oops` leaves the record gone, the index unchanged, and an error. -/
theorem delete_malformed_index_not_atomic_witness :
    deleteOp c9Store ['a'] =
      (⟨fsRemove c9Store.records (generateFileName ['a']), c9Store.index⟩,
        .error .malformedData) :=
  delete_malformed_index_not_atomic c9Store ['a'] ['x']
    (['o', 'o', 'p', 's'] : Str) rfl (by decide) ⟨.malformedData, rfl⟩

end LocalFileEvalStore

namespace LocalFileEvalStore

/-- Claim C2 fails on the code at this input: deleting the only saved run
succeeds and removes every index entry for the id (the index text becomes
a single delimiter), `load` is absent — but the subsequent `list()` does
not succeed: `slice(0, -1)` turns the log into the empty string, `split`
yields one empty line, and parsing that line throws Malformed Data. -/
theorem delete_last_run_then_list_fails :
    (deleteOp (save freshStore c2Run) ['a']).2 = .ok () ∧
    ((deleteOp (save freshStore c2Run) ['a']).1).index = ['\n'] ∧
    load (deleteOp (save freshStore c2Run) ['a']).1 ['a'] = .ok none ∧
    list (deleteOp (save freshStore c2Run) ['a']).1 none =
      .error .malformedData := by
  exact ⟨rfl, rfl, rfl, rfl⟩

/-- Claim C5 counterexample: a query that specifies the `actionRef`
filter `""` (the empty string) does not behave as "retain exactly the
keys whose actionRef equals the filter": the stored key's `actionRef` is
`a` ≠ `""`, yet `list` returns it. -/
theorem list_empty_string_filter_counterexample :
    list ⟨[], stringifyKey c5Key ++ ['\n']⟩ (some ⟨some ⟨some []⟩⟩) =
      .ok ⟨[c5Key]⟩ ∧ c5Key.actionRef ≠ [] := by
  exact ⟨rfl, by decide⟩

/-- Claim C5 as amended: for an index whose lines all parse to keys `ks`,
a query specifying a NON-EMPTY `actionRef` filter returns exactly the
keys whose `actionRef` equals the filter string (case-sensitively), in
append order and without deduplication; with no query every key is
returned in append order. -/
theorem list_filter_amended (st : StoreState) (ks : List EvalRunKey) (a : Str)
    (hks : readIndexKeys st.index = .ok ks) (ha : a ≠ []) :
    list st (some ⟨some ⟨some a⟩⟩) =
      .ok ⟨ks.filter (fun k => k.actionRef == a)⟩ ∧
    list st none = .ok ⟨ks⟩ := by
  constructor
  · simp [list, hks, queryActionRef, ha]
  · simp [list, hks, queryActionRef]

/-- Witness for the amended C5: three saved runs with actionRef values
a, b, a; the filter `a` returns the first and third key in order, and a
query-less list returns all three. -/
theorem list_filter_amended_witness :
    list (save (save (save freshStore c5RunA) c5RunB) c5RunC)
        (some ⟨some ⟨some ['a']⟩⟩) =
      .ok ⟨[c5RunA.key, c5RunC.key]⟩ ∧
    list (save (save (save freshStore c5RunA) c5RunB) c5RunC) none =
      .ok ⟨[c5RunA.key, c5RunB.key, c5RunC.key]⟩ :=
  list_filter_amended (save (save (save freshStore c5RunA) c5RunB) c5RunC)
    [c5RunA.key, c5RunB.key, c5RunC.key] ['a'] rfl (by decide)

end LocalFileEvalStore
